import Mathlib

/-!
Shallow embedding of the plotting pipeline in `plot.py` of the urbs
repository, together with theorems settling the specification claims
about it.

A pandas DataFrame of timeseries is modelled as a `Table`: an index
(the ordered timestamps) together with a list of named columns, each
column a list of rational values aligned with the index.  Iterating
over a DataFrame's columns visits them in insertion order, which the
column list models directly.  Numeric values are embedded as `ℚ`.
-/

/-- A named column of a timeseries table: series name and its values. -/
abbrev Col : Type := String × List ℚ

/-- A timeseries table: ordered timestamp index plus named columns,
modelling a pandas DataFrame. -/
@[ext]
structure Table where
  index : List Int
  cols : List Col
deriving DecidableEq

/-- Population variance of a list of values: the square of `np.std`.
`np.std(xs)` is `Real.sqrt (popVar xs)`; since `Real.sqrt` is strictly
monotone on nonnegative arguments, ordering columns by `np.std` is the
same as ordering them by `popVar` (see `popVar_nonneg` and
`sqrt_popVar_le_iff`). -/
def popVar (xs : List ℚ) : ℚ :=
  let n : ℚ := xs.length
  let m : ℚ := xs.sum / n
  ((xs.map (fun x => (x - m) ^ 2)).sum) / n

/-- Ordering of columns used by the argsort in `sort_plot_elements`:
compare the value each column holds in its last row (the appended
synthetic statistics row). -/
def rowLE (a b : Col) : Prop := a.2.getLastD 0 ≤ b.2.getLastD 0

instance : DecidableRel rowLE :=
  fun a b => inferInstanceAs (Decidable (a.2.getLastD 0 ≤ b.2.getLastD 0))

instance : IsTotal Col rowLE := ⟨fun a b => le_total (a.2.getLastD 0) (b.2.getLastD 0)⟩

instance : IsTrans Col rowLE := ⟨fun _ _ _ hab hbc => le_trans hab hbc⟩

/-- Ordering of the original columns by their population variance; the
ordering `rowLE` induces on them through the appended statistics row. -/
def colLE (a b : Col) : Prop := popVar a.2 ≤ popVar b.2

instance : DecidableRel colLE :=
  fun a b => inferInstanceAs (Decidable (popVar a.2 ≤ popVar b.2))

instance : IsTotal Col colLE := ⟨fun a b => le_total (popVar a.2) (popVar b.2)⟩

instance : IsTrans Col colLE := ⟨fun _ _ _ hab hbc => le_trans hab hbc⟩

/-- Ordering of columns by ascending population standard deviation
(`np.std`), the quantity the source argsorts on. -/
def stdLE (a b : Col) : Prop :=
  Real.sqrt ((popVar a.2 : ℝ)) ≤ Real.sqrt ((popVar b.2 : ℝ))

/-- One half of `sort_plot_elements` in `plot.py` (the same code block is
run once for `created` and once for `consumed`).  For a table with more
than one column the source

  * builds a one-row frame `std` indexed by `index[-1] + 1` holding
    `np.std(created[col])` for every column,
  * appends it to the table (`created.append(std)`), so each column
    gains the statistic as its final entry,
  * argsorts the last row (`created.ix[created.last_valid_index()]`)
    and reindexes the columns by the result (`created[new_columns]`) —
    modelled as a stable sort of the columns by their last entry
    (numpy's argsort on the handful of columns a plot has runs its
    stable small-array insertion sort), where the appended entry is the
    variance, an order-equivalent key to the standard deviation the
    source appends (`Real.sqrt` is monotone, `sqrt_popVar_le_iff`),
  * drops the synthetic final row again (`[:-1]`), modelled by
    `dropLast` on the index and on every column.

A table with at most one column is returned unchanged. -/
def sortTable (t : Table) : Table :=
  if t.cols.length > 1 then
    let appended : List Col := t.cols.map (fun c => (c.1, c.2 ++ [popVar c.2]))
    let newIndex : List Int := t.index ++ [t.index.getLastD 0 + 1]
    let sortedCols : List Col := List.insertionSort rowLE appended
    ⟨newIndex.dropLast, sortedCols.map (fun c => (c.1, c.2.dropLast))⟩
  else t

/-- `sort_plot_elements(created, consumed)` from `plot.py`: sorts both
tables, each by the variance of its own columns. -/
def sort_plot_elements (created consumed : Table) : Table × Table :=
  (sortTable created, sortTable consumed)

/-- The population variance is a mean of squares, hence nonnegative. -/
theorem popVar_nonneg (xs : List ℚ) : 0 ≤ popVar xs := by
  unfold popVar
  apply div_nonneg _ (by positivity)
  apply List.sum_nonneg
  intro x hx
  simp only [List.mem_map] at hx
  obtain ⟨y, -, rfl⟩ := hx
  positivity

/-- Ordering columns by `np.std` (the appended statistic in the source)
agrees with ordering them by the population variance used in the
embedding. -/
theorem sqrt_popVar_le_iff (xs ys : List ℚ) :
    (Real.sqrt ((popVar xs : ℝ)) ≤ Real.sqrt ((popVar ys : ℝ))) ↔ popVar xs ≤ popVar ys := by
  constructor
  · intro h
    by_contra hlt
    push_neg at hlt
    have hyx : Real.sqrt ((popVar ys : ℝ)) < Real.sqrt ((popVar xs : ℝ)) := by
      apply Real.sqrt_lt_sqrt
      · exact_mod_cast popVar_nonneg ys
      · exact_mod_cast hlt
    exact absurd h (not_le.mpr hyx)
  · intro h
    exact Real.sqrt_le_sqrt (by exact_mod_cast h)

/-- Dropping the last entry of a column that has just had a statistic
appended recovers the original column. -/
theorem dropLast_append_stat (c : Col) (q : ℚ) :
    ((fun c : Col => (c.1, c.2.dropLast)) ((fun c : Col => (c.1, c.2 ++ [q])) c)) = c := by
  simp [List.dropLast_concat]

/-- The columns the sorter outputs are exactly the input columns,
stably sorted by ascending variance: appending the statistics row,
argsorting it and dropping it again amounts to a stable sort of the
original columns keyed by their variance. -/
theorem sortTable_cols (t : Table) (h : t.cols.length > 1) :
    (sortTable t).cols = List.insertionSort colLE t.cols := by
  have hiff : ∀ a ∈ t.cols.map (fun c : Col => (c.1, c.2 ++ [popVar c.2])),
      ∀ b ∈ t.cols.map (fun c : Col => (c.1, c.2 ++ [popVar c.2])),
      rowLE a b ↔ colLE ((fun c : Col => (c.1, c.2.dropLast)) a)
        ((fun c : Col => (c.1, c.2.dropLast)) b) := by
    intro a ha b hb
    simp only [List.mem_map] at ha hb
    obtain ⟨ca, -, rfl⟩ := ha
    obtain ⟨cb, -, rfl⟩ := hb
    simp [rowLE, colLE, List.getLastD_concat, List.dropLast_concat]
  have hmap := List.map_insertionSort rowLE colLE
    (fun c : Col => (c.1, c.2.dropLast))
    (t.cols.map (fun c : Col => (c.1, c.2 ++ [popVar c.2]))) hiff
  have hid : ((fun c : Col => (c.1, c.2.dropLast)) ∘ (fun c : Col => (c.1, c.2 ++ [popVar c.2])))
      = id := by
    funext c
    simp [List.dropLast_concat]
  unfold sortTable
  rw [if_pos h]
  show (List.insertionSort rowLE
      (t.cols.map (fun c : Col => (c.1, c.2 ++ [popVar c.2])))).map
        (fun c : Col => (c.1, c.2.dropLast))
    = List.insertionSort colLE t.cols
  rw [hmap, List.map_map, hid, List.map_id]

/-- The sorter never touches the timestamp index: the synthetic row's
label is dropped again with the row itself. -/
theorem sortTable_index (t : Table) : (sortTable t).index = t.index := by
  unfold sortTable
  split
  · simp [List.dropLast_concat]
  · rfl

/-- The output columns are a permutation of the input columns. -/
theorem sortTable_perm (t : Table) : (sortTable t).cols.Perm t.cols := by
  by_cases h : t.cols.length > 1
  · rw [sortTable_cols t h]
    exact List.perm_insertionSort colLE t.cols
  · unfold sortTable
    rw [if_neg h]

/-- Filtering for a fixed variance value commutes with an ordered
insert: the inserted column lands before every column of equal
variance, and skips only columns of strictly smaller variance. -/
theorem filter_popVar_orderedInsert (q : ℚ) (x : Col) (l : List Col) :
    (List.orderedInsert colLE x l).filter (fun c => decide (popVar c.2 = q)) =
      if popVar x.2 = q then x :: l.filter (fun c => decide (popVar c.2 = q))
      else l.filter (fun c => decide (popVar c.2 = q)) := by
  induction l with
  | nil =>
    simp only [List.orderedInsert]
    split_ifs with hq
    · simp [List.filter, hq]
    · simp [List.filter, hq]
  | cons y ys ih =>
    simp only [List.orderedInsert]
    by_cases hxy : colLE x y
    · rw [if_pos hxy]
      by_cases hq : popVar x.2 = q
      · simp [List.filter_cons, hq]
      · simp [List.filter_cons, hq]
    · rw [if_neg hxy]
      rw [List.filter_cons, List.filter_cons]
      by_cases hyq : popVar y.2 = q
      · have hxq : ¬ popVar x.2 = q := by
          intro hxq
          exact hxy (le_of_eq (hxq.trans hyq.symm))
        simp [hyq, hxq, ih]
      · simp [hyq, ih]

/-- Stability of the variance sort, stated through filters: for every
variance value the subsequence of columns attaining it is unchanged. -/
theorem filter_popVar_insertionSort (q : ℚ) (l : List Col) :
    (List.insertionSort colLE l).filter (fun c => decide (popVar c.2 = q)) =
      l.filter (fun c => decide (popVar c.2 = q)) := by
  induction l with
  | nil => rfl
  | cons x xs ih =>
    simp only [List.insertionSort]
    rw [filter_popVar_orderedInsert, List.filter_cons]
    by_cases hq : popVar x.2 = q
    · simp [hq, ih]
    · simp [hq, ih]

/-- The sorter's output columns are sorted by ascending variance. -/
theorem sortTable_sorted (t : Table) (h : t.cols.length > 1) :
    List.Sorted colLE (sortTable t).cols := by
  rw [sortTable_cols t h]
  exact List.sorted_insertionSort colLE t.cols

/-- Concrete tables used by the witness theorems. -/
def tblA : Table := ⟨[1, 2], [("Wind", [10, 12]), ("Gas", [3, 3])]⟩

/-- Concrete one-column table used by the witness theorems. -/
def tblB : Table := ⟨[1, 2], [("Demand", [9, 11])]⟩

/-- Claim C1: for every input table with at least 2 columns,
`sort_plot_elements` returns the table with its columns reordered by
ascending population standard deviation over the full horizon, and the
tie-break is stable: columns of equal standard deviation retain their
relative input order (stated as: the output columns are a permutation
of the input columns, sorted by ascending `np.std`, and for every
variance value the subsequence of columns attaining it is unchanged —
equal standard deviation is equal variance). -/
theorem sort_plot_elements_sorted_stable (created consumed : Table)
    (h : 2 ≤ created.cols.length) :
    (sort_plot_elements created consumed).1.cols.Perm created.cols ∧
    List.Sorted stdLE (sort_plot_elements created consumed).1.cols ∧
    (∀ q : ℚ,
      (sort_plot_elements created consumed).1.cols.filter (fun c => decide (popVar c.2 = q)) =
        created.cols.filter (fun c => decide (popVar c.2 = q))) := by
  have h1 : created.cols.length > 1 := h
  refine ⟨sortTable_perm created, ?_, ?_⟩
  · have hs := sortTable_sorted created h1
    exact hs.imp (fun hab => (sqrt_popVar_le_iff _ _).mpr hab)
  · intro q
    show (sortTable created).cols.filter _ = _
    rw [sortTable_cols created h1]
    exact filter_popVar_insertionSort q created.cols

/-- Witness for claim C1 at a concrete two-column table. -/
theorem sort_plot_elements_sorted_stable_witness :
    2 ≤ tblA.cols.length ∧
    ((sort_plot_elements tblA tblB).1.cols.Perm tblA.cols ∧
     List.Sorted stdLE (sort_plot_elements tblA tblB).1.cols ∧
     (∀ q : ℚ,
       (sort_plot_elements tblA tblB).1.cols.filter (fun c => decide (popVar c.2 = q)) =
         tblA.cols.filter (fun c => decide (popVar c.2 = q)))) :=
  ⟨by decide, sort_plot_elements_sorted_stable tblA tblB (by decide)⟩

/-- Claim C4: the column sort is idempotent on tables with at least two
columns: sorting an already-sorted table changes nothing. -/
theorem sort_idempotent (t : Table) (h : 2 ≤ t.cols.length) :
    sortTable (sortTable t) = sortTable t := by
  have h1 : t.cols.length > 1 := h
  have h2 : (sortTable t).cols.length > 1 := by
    rw [sortTable_cols t h1, List.length_insertionSort]
    exact h1
  apply Table.ext
  · rw [sortTable_index, sortTable_index]
  · rw [sortTable_cols _ h2, sortTable_cols t h1]
    exact (List.sorted_insertionSort colLE t.cols).insertionSort_eq

/-- Witness for claim C4 at a concrete two-column table. -/
theorem sort_idempotent_witness :
    2 ≤ tblA.cols.length ∧ sortTable (sortTable tblA) = sortTable tblA :=
  ⟨by decide, sort_idempotent tblA (by decide)⟩

/-- Claim C9: a table with exactly one column is returned unchanged by
the column sort (the variance branch is not entered at all). -/
theorem sort_single_column (t : Table) (h : t.cols.length = 1) :
    sortTable t = t := by
  unfold sortTable
  rw [if_neg (by omega)]

/-- Witness for claim C9 at a concrete one-column table. -/
theorem sort_single_column_witness :
    tblB.cols.length = 1 ∧ sortTable tblB = tblB :=
  ⟨by decide, sort_single_column tblB (by decide)⟩

/-- Claim C8: the sorter only reorders columns — the output's columns
are a permutation of the input's (hence the same names with exactly the
same values), and the timestamp index is unchanged, so the synthetic
variance row appended during sorting never appears in the output. -/
theorem sort_frame_effect (t : Table) :
    (sortTable t).index = t.index ∧
    (sortTable t).cols.Perm t.cols ∧
    ((sortTable t).cols.map Prod.fst).Perm (t.cols.map Prod.fst) :=
  ⟨sortTable_index t, sortTable_perm t, (sortTable_perm t).map Prod.fst⟩

/-- pandas `Series.any()`: true iff the series holds a truthy (nonzero)
value. -/
def seriesAny (xs : List ℚ) : Bool := xs.any (fun x => decide (x ≠ 0))

/-- The inner test of the pruning loop in `figure`:
`col not in consumed.columns or not consumed[col].any()`. -/
def zeroInConsumed (consumed : List Col) (name : String) : Bool :=
  match consumed.find? (fun d => d.1 == name) with
  | none => true
  | some d => !seriesAny d.2

/-- The pruning criterion for a column of `created` (everything in the
loop condition apart from the live column-count guard): identically
zero in `created`, and absent from or identically zero in `consumed`. -/
def prunableCol (consumed : List Col) (c : Col) : Bool :=
  !seriesAny c.2 && zeroInConsumed consumed c.1

/-- One iteration of the pruning loop in `figure` for a column name:
if the column is all-zero in the current frame, more than one column
remains, and the column is absent from or all-zero in `consumed`, it is
popped.  (`created[col]` would raise a KeyError when the name is
missing; the loop never reaches that state for distinct names.) -/
def pruneStep (consumed : List Col) (cur : List Col) (name : String) : List Col :=
  match cur.find? (fun c => c.1 == name) with
  | none => cur
  | some c =>
    if !seriesAny c.2 && decide (cur.length > 1) && zeroInConsumed consumed name then
      cur.eraseP (fun c => c.1 == name)
    else cur

/-- The pruning loop of `figure` (lines 57-60): `for col in
created.columns` iterates over a snapshot of the column names taken
before the first pop, while each pop shrinks the live frame. -/
def pruneCreated (consumed created : List Col) : List Col :=
  (created.map Prod.fst).foldl (pruneStep consumed) created

/-- A list holding two distinct members has more than one element. -/
theorem one_lt_length_of_two_mem {α : Type} {l : List α} {a b : α}
    (ha : a ∈ l) (hb : b ∈ l) (hne : a ≠ b) : 1 < l.length := by
  cases l with
  | nil => simp at ha
  | cons x xs =>
    cases xs with
    | nil =>
      simp at ha hb
      exact absurd (ha.trans hb.symm) hne
    | cons y ys =>
      simp only [List.length_cons]
      omega


/-- While at least one column of the whole frame fails the pruning
criterion, the column-count guard never fires, so the loop removes
exactly the prunable columns among those whose names are still to be
visited.  `A` is the already-visited (and kept) prefix, `B` the
columns still to be visited. -/
theorem pruneFold_keeper (consumed : List Col) :
    ∀ (B A : List Col),
      (((A ++ B).map Prod.fst).Nodup) →
      (∃ k ∈ A ++ B, prunableCol consumed k = false) →
      (∀ a ∈ A, prunableCol consumed a = false) →
      (B.map Prod.fst).foldl (pruneStep consumed) (A ++ B) =
        A ++ B.filter (fun c => !prunableCol consumed c) := by
  intro B
  induction B with
  | nil =>
    intro A _ _ _
    simp
  | cons c B' ih =>
    intro A hnd hex hA
    have hc1 : c.1 ∉ A.map Prod.fst := by
      intro hmem
      rw [List.map_append, List.nodup_append] at hnd
      exact hnd.2.2 hmem (by simp)
    have hAfind : A.find? (fun d => d.1 == c.1) = none := by
      rw [List.find?_eq_none]
      intro a ha
      simp only [beq_iff_eq]
      intro heq
      exact hc1 (heq ▸ List.mem_map_of_mem Prod.fst ha)
    have hfind : (A ++ c :: B').find? (fun d => d.1 == c.1) = some c := by
      rw [List.find?_append, hAfind]
      simp [List.find?_cons_of_pos]
    show List.foldl (pruneStep consumed) (A ++ c :: B') (c.1 :: B'.map Prod.fst) =
      A ++ (c :: B').filter (fun c => !prunableCol consumed c)
    by_cases hc : prunableCol consumed c = true
    · -- the visited column is pruned
      obtain ⟨k, hk, hkeep⟩ := hex
      have hkc : k ≠ c := by
        intro h
        rw [h, hc] at hkeep
        simp at hkeep
      have hlen : 1 < (A ++ c :: B').length :=
        one_lt_length_of_two_mem hk (by simp) hkc
      have hp : (!seriesAny c.2) = true ∧ zeroInConsumed consumed c.1 = true := by
        simpa [prunableCol, Bool.and_eq_true] using hc
      have hstep : pruneStep consumed (A ++ c :: B') c.1 = A ++ B' := by
        unfold pruneStep
        rw [hfind]
        show (if (!seriesAny c.2 && decide ((A ++ c :: B').length > 1)
              && zeroInConsumed consumed c.1) = true
            then List.eraseP (fun d => d.1 == c.1) (A ++ c :: B')
            else A ++ c :: B') = A ++ B'
        rw [if_pos (by simp [hp.1, hp.2]; simpa using hlen)]
        rw [List.eraseP_append_right _ (fun b hb => by
          simp only [beq_iff_eq]
          intro heq
          exact hc1 (heq ▸ List.mem_map_of_mem Prod.fst hb))]
        simp [List.eraseP_cons_of_pos]
      rw [List.foldl_cons, hstep]
      have hnd' : ((A ++ B').map Prod.fst).Nodup := by
        apply List.Nodup.sublist _ hnd
        apply List.Sublist.map
        exact List.Sublist.append_left (List.sublist_cons_self c B') A
      have hex' : ∃ k ∈ A ++ B', prunableCol consumed k = false := by
        refine ⟨k, ?_, hkeep⟩
        rcases List.mem_append.mp hk with h | h
        · exact List.mem_append.mpr (Or.inl h)
        · rcases List.mem_cons.mp h with h | h
          · exact absurd h hkc
          · exact List.mem_append.mpr (Or.inr h)
      rw [ih A hnd' hex' hA, List.filter_cons]
      rw [if_neg (by simp [hc])]
    · -- the visited column is kept
      have hc' : prunableCol consumed c = false := by
        cases h : prunableCol consumed c
        · rfl
        · exact absurd h hc
      have hcond : (!seriesAny c.2 && decide ((A ++ c :: B').length > 1)
          && zeroInConsumed consumed c.1) = false := by
        have h2 : (!seriesAny c.2 && zeroInConsumed consumed c.1) = false := by
          simpa [prunableCol] using hc'
        revert h2
        cases seriesAny c.2 <;> cases zeroInConsumed consumed c.1 <;>
          cases decide ((A ++ c :: B').length > 1) <;> decide
      have hstep : pruneStep consumed (A ++ c :: B') c.1 = A ++ c :: B' := by
        unfold pruneStep
        rw [hfind]
        show (if (!seriesAny c.2 && decide ((A ++ c :: B').length > 1)
              && zeroInConsumed consumed c.1) = true
            then List.eraseP (fun d => d.1 == c.1) (A ++ c :: B')
            else A ++ c :: B') = A ++ c :: B'
        rw [if_neg (by rw [hcond]; simp)]
      rw [List.foldl_cons, hstep]
      have hsplit : A ++ c :: B' = (A ++ [c]) ++ B' := by simp
      rw [hsplit]
      rw [ih (A ++ [c]) (by rw [← hsplit]; exact hnd)
        (by rw [← hsplit]; exact hex)
        (by
          intro a ha
          rcases List.mem_append.mp ha with h | h
          · exact hA a h
          · rw [List.mem_singleton.mp h]
            exact hc')]
      rw [List.filter_cons]
      rw [if_pos (by simp [hc'])]
      simp

/-- When every column of the frame satisfies the pruning criterion, the
loop pops the columns front to back until the guard `len > 1` blocks
it, leaving exactly the final column. -/
theorem pruneFold_allPrunable (consumed : List Col) :
    ∀ (B : List Col) (hne : B ≠ []),
      ((B.map Prod.fst).Nodup) →
      (∀ c ∈ B, prunableCol consumed c = true) →
      (B.map Prod.fst).foldl (pruneStep consumed) B = [B.getLast hne] := by
  intro B
  induction B with
  | nil =>
    intro h
    exact absurd rfl h
  | cons c B' ih =>
    intro _ hnd hall
    cases B' with
    | nil =>
      show List.foldl (pruneStep consumed) [c] [c.1] = [c]
      rw [List.foldl_cons, List.foldl_nil]
      unfold pruneStep
      rw [List.find?_cons_of_pos _ (by simp)]
      show (if (!seriesAny c.2 && decide (([c] : List Col).length > 1)
            && zeroInConsumed consumed c.1) = true
          then List.eraseP (fun d => d.1 == c.1) [c]
          else [c]) = [c]
      rw [if_neg (by simp)]
    | cons c2 B'' =>
      have hp : (!seriesAny c.2) = true ∧ zeroInConsumed consumed c.1 = true := by
        simpa [prunableCol, Bool.and_eq_true] using hall c (by simp)
      have hstep : pruneStep consumed (c :: c2 :: B'') c.1 = c2 :: B'' := by
        unfold pruneStep
        rw [List.find?_cons_of_pos _ (by simp)]
        show (if (!seriesAny c.2 && decide ((c :: c2 :: B'').length > 1)
              && zeroInConsumed consumed c.1) = true
            then List.eraseP (fun d => d.1 == c.1) (c :: c2 :: B'')
            else c :: c2 :: B'') = c2 :: B''
        rw [if_pos (by simp [hp.1, hp.2])]
        simp [List.eraseP_cons_of_pos]
      have hnd' : ((c2 :: B'').map Prod.fst).Nodup := by
        simp only [List.map_cons, List.nodup_cons] at hnd ⊢
        exact ⟨hnd.2.1, hnd.2.2⟩
      show List.foldl (pruneStep consumed) (c :: c2 :: B'')
        (c.1 :: (c2 :: B'').map Prod.fst) = [(c :: c2 :: B'').getLast (by simp)]
      rw [List.foldl_cons, hstep,
        ih (by simp) hnd' (fun d hd => hall d (List.mem_cons_of_mem c hd))]
      congr 1

/-- Claim C2: the pruning step removes from `created` exactly the
columns that are identically zero over the full horizon in `created`
and absent from or identically zero in `consumed` (whenever at least
one column fails that criterion), and it never empties the table: at
least one column always survives, even when every column is prunable. -/
theorem prune_exact (created consumed : List Col)
    (hnd : (created.map Prod.fst).Nodup) (hne : created ≠ []) :
    pruneCreated consumed created ≠ [] ∧
    ((∃ k ∈ created, prunableCol consumed k = false) →
      pruneCreated consumed created =
        created.filter (fun c => !prunableCol consumed c)) := by
  have hfold : (∃ k ∈ created, prunableCol consumed k = false) →
      pruneCreated consumed created =
        created.filter (fun c => !prunableCol consumed c) := by
    intro hex
    have h := pruneFold_keeper consumed created [] (by simpa using hnd)
      (by simpa using hex) (by simp)
    simpa [pruneCreated] using h
  refine ⟨?_, hfold⟩
  by_cases hex : ∃ k ∈ created, prunableCol consumed k = false
  · rw [hfold hex]
    obtain ⟨k, hk, hkeep⟩ := hex
    exact List.ne_nil_of_mem (List.mem_filter.mpr ⟨hk, by simp [hkeep]⟩)
  · push_neg at hex
    have hall : ∀ c ∈ created, prunableCol consumed c = true := by
      intro c hcmem
      cases h : prunableCol consumed c
      · exact absurd h (hex c hcmem)
      · rfl
    have h := pruneFold_allPrunable consumed created hne hnd hall
    unfold pruneCreated
    rw [h]
    simp

/-- Concrete `created` columns for the pruning witnesses. -/
def pruneCreatedA : List Col := [("Wind", [10, 12, 8]), ("Gas", [0, 0, 0])]

/-- Concrete `consumed` columns for the pruning witnesses. -/
def pruneConsumedA : List Col := [("Storage", [0, 0, 0])]

/-- Witness for claim C2 at concrete tables. -/
theorem prune_exact_witness :
    (pruneCreatedA.map Prod.fst).Nodup ∧ pruneCreatedA ≠ [] ∧
    (pruneCreated pruneConsumedA pruneCreatedA ≠ [] ∧
     ((∃ k ∈ pruneCreatedA, prunableCol pruneConsumedA k = false) →
       pruneCreated pruneConsumedA pruneCreatedA =
         pruneCreatedA.filter (fun c => !prunableCol pruneConsumedA c))) :=
  ⟨by decide, by decide, prune_exact pruneCreatedA pruneConsumedA (by decide) (by decide)⟩

/-- Claim C10: when every column of `created` satisfies the pruning
criterion, the single surviving column is exactly the last column of
`created` in its original order (the loop pops front to back and the
guard stops it at the final column). -/
theorem prune_allzero_keeps_last (created consumed : List Col)
    (hnd : (created.map Prod.fst).Nodup) (hne : created ≠ [])
    (hall : ∀ c ∈ created, prunableCol consumed c = true) :
    pruneCreated consumed created = [created.getLast hne] := by
  unfold pruneCreated
  exact pruneFold_allPrunable consumed created hne hnd hall

/-- Concrete all-zero `created` columns for the C10 witness. -/
def pruneCreatedB : List Col := [("Gas", [0, 0]), ("Oil", [0, 0])]

/-- Witness for claim C10 at concrete tables: both columns are
prunable and the second (last) one survives. -/
theorem prune_allzero_keeps_last_witness :
    (pruneCreatedB.map Prod.fst).Nodup ∧ pruneCreatedB ≠ [] ∧
    (∀ c ∈ pruneCreatedB, prunableCol [] c = true) ∧
    pruneCreated [] pruneCreatedB = [pruneCreatedB.getLast (by decide)] :=
  ⟨by decide, by decide, by decide,
    prune_allzero_keeps_last pruneCreatedB [] (by decide) (by decide) (by decide)⟩

/-- The legend construction in `figure` (lines 88-110): start from the
tuple of all `created` column names, then walk the `consumed` columns
in order, appending each name that is neither already a `created`
column nor all-zero.  (The source looks each visited name up in the
live frame, which for the unique column names pandas joins guarantee
is the visited column itself.) -/
def legendItems (created consumed : List Col) : List String :=
  consumed.foldl
    (fun lg c =>
      if (created.map Prod.fst).contains c.1 || !seriesAny c.2 then lg
      else lg ++ [c.1])
    (created.map Prod.fst)

/-- The color keys of the proxy swatch rectangles built alongside the
legend labels: one per `created` column from the stackplot color loop,
then one per admitted `consumed`-only column from the legend loop. -/
def proxyArtists (created consumed : List Col) : List String :=
  consumed.foldl
    (fun pa c =>
      if (created.map Prod.fst).contains c.1 || !seriesAny c.2 then pa
      else pa ++ [c.1])
    (created.map Prod.fst)

/-- The column count passed to the legend call: `ncol=len(proxy_artists)`. -/
def legendNcol (created consumed : List Col) : Nat :=
  (proxyArtists created consumed).length

/-- The legend fold appends, to whatever accumulator it starts from,
the names of exactly the `consumed` columns that are neither shared
with `created` nor all-zero, in `consumed` order. -/
theorem legendItems_fold (created : List Col) :
    ∀ (consumed : List Col) (lg : List String),
      consumed.foldl
        (fun lg c =>
          if (created.map Prod.fst).contains c.1 || !seriesAny c.2 then lg
          else lg ++ [c.1]) lg =
      lg ++ (consumed.filter
        (fun c => !(created.map Prod.fst).contains c.1 && seriesAny c.2)).map Prod.fst := by
  intro consumed
  induction consumed with
  | nil =>
    intro lg
    simp
  | cons c cs ih =>
    intro lg
    rw [List.foldl_cons]
    by_cases h2 : seriesAny c.2 = true
    · by_cases h1 : (created.map Prod.fst).contains c.1 = true
      · rw [if_pos (by rw [h1, Bool.true_or]), ih lg, List.filter_cons,
          if_neg (by rw [h1, Bool.not_true, Bool.false_and]; simp)]
      · have h1' : (created.map Prod.fst).contains c.1 = false := by
          revert h1
          cases (created.map Prod.fst).contains c.1 <;> simp
        rw [if_neg (by rw [h1', h2, Bool.not_true, Bool.false_or]; simp),
          ih (lg ++ [c.1]), List.filter_cons,
          if_pos (by rw [h1', h2, Bool.not_false, Bool.true_and])]
        simp
    · have h2' : seriesAny c.2 = false := by
        revert h2
        cases seriesAny c.2 <;> simp
      rw [if_pos (by rw [h2', Bool.not_false, Bool.or_true]), ih lg, List.filter_cons,
        if_neg (by rw [h2', Bool.and_false]; simp)]

/-- Claim C5: the legend is the `created` column names in their
current order followed by the names of the `consumed` columns that are
not in `created` and not all-zero, its entry count is the sum of those
two counts, and the legend's column count (`ncol`) equals the entry
count. -/
theorem legend_entries (created consumed : List Col) :
    legendItems created consumed =
      created.map Prod.fst ++
        (consumed.filter
          (fun c => !(created.map Prod.fst).contains c.1 && seriesAny c.2)).map Prod.fst ∧
    (legendItems created consumed).length =
      created.length +
        (consumed.filter
          (fun c => !(created.map Prod.fst).contains c.1 && seriesAny c.2)).length ∧
    legendNcol created consumed = (legendItems created consumed).length := by
  have h := legendItems_fold created consumed (created.map Prod.fst)
  refine ⟨h, ?_, rfl⟩
  rw [show legendItems created consumed = _ from h]
  simp

/-- The inputs `figure` receives from the collaborator accessor
`urbs.get_timeseries` for one (commodity, site) pair: the five raw
tables, with the storage table already split into the three series
`Retrieved`, `Stored` and `Level` it is guaranteed to expose. -/
structure FigureInput where
  created : Table
  consumed : Table
  storedRetrieved : List ℚ
  storedStored : List ℚ
  storedLevel : List ℚ
  imported : Table
  exported : Table

/-- `created` after the joins in `figure` (lines 40-49): the storage
retrieval series joined in and renamed to `Storage`, then the imported
columns.  A pandas left join on the shared timestep index appends the
new columns on the right (the join requires the incoming names to be
fresh, which the collaborator guarantees). -/
def mergedCreated (inp : FigureInput) : Table :=
  ⟨inp.created.index,
    (inp.created.cols ++ [("Storage", inp.storedRetrieved)]) ++ inp.imported.cols⟩

/-- `consumed` after the joins in `figure` (lines 41-50): the storage
charging series joined in and renamed to `Storage`, then the exported
columns. -/
def mergedConsumed (inp : FigureInput) : Table :=
  ⟨inp.consumed.index,
    (inp.consumed.cols ++ [("Storage", inp.storedStored)]) ++ inp.exported.cols⟩

/-- The data `figure` computes and hands to the rendering calls:
the processed `created` and `consumed` tables, the extracted demand
series, the storage level kept for the optional storage panel, and
the legend labels. -/
structure FigureData where
  created : Table
  consumed : Table
  demand : List ℚ
  storedLevel : List ℚ
  legend : List String

/-- The data pipeline of `figure` in `plot.py` (lines 33-110): join the
storage and import/export flows, pop the `Demand` series out of
`consumed` (`consumed.pop('Demand')` raises a KeyError — surfaced here
as `MissingSeriesError` — when that series is missing), prune all-zero
columns from `created`, sort both tables by variance, and build the
legend labels. -/
def figure (inp : FigureInput) : Except String FigureData :=
  match (mergedConsumed inp).cols.find? (fun c => c.1 == "Demand") with
  | none => Except.error "MissingSeriesError"
  | some dem =>
    let consumed3 : Table :=
      ⟨(mergedConsumed inp).index,
        (mergedConsumed inp).cols.eraseP (fun c => c.1 == "Demand")⟩
    let created3 : Table :=
      ⟨(mergedCreated inp).index, pruneCreated consumed3.cols (mergedCreated inp).cols⟩
    let sorted := sort_plot_elements created3 consumed3
    Except.ok ⟨sorted.1, sorted.2, dem.2, inp.storedLevel,
      legendItems sorted.1.cols sorted.2.cols⟩

/-- Claim C6: when the `Demand` series is absent from the merged
consumed table at the moment extraction is attempted, the render
aborts with `MissingSeriesError`: the error is the result of the whole
render and propagates to the caller instead of being absorbed. -/
theorem missing_demand_aborts (inp : FigureInput)
    (h : "Demand" ∉ (mergedConsumed inp).cols.map Prod.fst) :
    figure inp = Except.error "MissingSeriesError" := by
  have hfind : (mergedConsumed inp).cols.find? (fun c => c.1 == "Demand") = none := by
    rw [List.find?_eq_none]
    intro c hc
    simp only [beq_iff_eq]
    intro heq
    exact h (heq ▸ List.mem_map_of_mem Prod.fst hc)
  unfold figure
  rw [hfind]

/-- Concrete render input without any `Demand` series. -/
def figInp : FigureInput :=
  ⟨⟨[1, 2], [("Wind", [10, 12])]⟩, ⟨[1, 2], [("Lights", [9, 11])]⟩,
    [0, 0], [0, 0], [0, 0], ⟨[1, 2], []⟩, ⟨[1, 2], []⟩⟩

/-- Witness for claim C6 at a concrete input. -/
theorem missing_demand_aborts_witness :
    "Demand" ∉ (mergedConsumed figInp).cols.map Prod.fst ∧
    figure figInp = Except.error "MissingSeriesError" :=
  ⟨by decide, missing_demand_aborts figInp (by decide)⟩

/-- The price-curve selection of `plot_variable_costs` (lines 226-244).
Price-table columns are keyed by (site, commodity, direction) tuples.
For each of the buy and sell curves the source builds the Boolean mask
`prices.columns.isin([key])`; when `mask.any() == False` it draws the
empty line `plot([],[])`, otherwise it draws the masked columns
`prices.loc[:, mask]`.  The result is the pair of drawn curve bundles
(buy first, sell second), each a list of plotted series. -/
def plot_variable_costs (sit : String)
    (buyPrices sellPrices : List ((String × String × String) × List ℚ)) :
    List (List ℚ) × List (List ℚ) :=
  ((if (buyPrices.map (fun c => decide (c.1 = (sit, "Elec buy", "Buy")))).any id then
      (buyPrices.filter (fun c => decide (c.1 = (sit, "Elec buy", "Buy")))).map Prod.snd
    else []),
   (if (sellPrices.map (fun c => decide (c.1 = (sit, "Elec sell", "Sell")))).any id then
      (sellPrices.filter (fun c => decide (c.1 = (sit, "Elec sell", "Sell")))).map Prod.snd
    else []))

/-- Claim C7: when the price metadata has no column matching the
(site, "Elec buy", "Buy") key and none matching the
(site, "Elec sell", "Sell") key, the secondary panel builder completes
(it is a total function of its inputs) and draws an empty line for
each of the two missing curves. -/
theorem variable_costs_no_keys (sit : String)
    (buyPrices sellPrices : List ((String × String × String) × List ℚ))
    (hb : ∀ c ∈ buyPrices, c.1 ≠ (sit, "Elec buy", "Buy"))
    (hs : ∀ c ∈ sellPrices, c.1 ≠ (sit, "Elec sell", "Sell")) :
    plot_variable_costs sit buyPrices sellPrices = ([], []) := by
  have hbuy : ((buyPrices.map (fun c => decide (c.1 = (sit, "Elec buy", "Buy")))).any id)
      = false := by
    rw [List.any_eq_false]
    intro b hb2
    simp only [List.mem_map] at hb2
    obtain ⟨c, hc, rfl⟩ := hb2
    simpa using hb c hc
  have hsell : ((sellPrices.map (fun c => decide (c.1 = (sit, "Elec sell", "Sell")))).any id)
      = false := by
    rw [List.any_eq_false]
    intro b hs2
    simp only [List.mem_map] at hs2
    obtain ⟨c, hc, rfl⟩ := hs2
    simpa using hs c hc
  unfold plot_variable_costs
  rw [if_neg (by rw [hbuy]; simp), if_neg (by rw [hsell]; simp)]

/-- Concrete buy-price table whose only key is not the Elec-buy key. -/
def buyPricesW : List ((String × String × String) × List ℚ) :=
  [(("A", "Coal", "Buy"), [1, 2])]

/-- Concrete empty sell-price table. -/
def sellPricesW : List ((String × String × String) × List ℚ) := []

/-- Witness for claim C7 at concrete price tables. -/
theorem variable_costs_no_keys_witness :
    (∀ c ∈ buyPricesW, c.1 ≠ ("A", "Elec buy", "Buy")) ∧
    (∀ c ∈ sellPricesW, c.1 ≠ ("A", "Elec sell", "Sell")) ∧
    plot_variable_costs "A" buyPricesW sellPricesW = ([], []) :=
  ⟨by decide, by decide,
    variable_costs_no_keys "A" buyPricesW sellPricesW (by decide) (by decide)⟩

/-- The tick-stride selection in `axis_properties` (lines 315-326):
a step function of the number of plotted timesteps. -/
def steps_between_ticks (timesteps : List Int) : Nat :=
  if timesteps.length > 26 * 168 then 168 * 4
  else if timesteps.length > 3 * 168 then 168
  else if timesteps.length > 2 * 24 then 24
  else if timesteps.length > 24 then 6
  else 3

/-- Modelled from the claim's words, for comparison with the source:
the stride as a step function of the horizon length `n` alone — 672
when n > 26*168, else 168 when n > 3*168, else 24 when n > 48, else 6
when n > 24, else 3. -/
def strideOfLen (n : Nat) : Nat :=
  if n > 26 * 168 then 672
  else if n > 3 * 168 then 168
  else if n > 48 then 24
  else if n > 24 then 6
  else 3

/-- Claim C3: the stride `axis_properties` selects is exactly the step
function of the horizon length stated by the claim, and in particular
horizons of 8760, 200, 30 and 10 steps give strides 672, 24, 6 and 3. -/
theorem axis_stride_spec :
    (∀ timesteps : List Int, steps_between_ticks timesteps = strideOfLen timesteps.length) ∧
    steps_between_ticks ((List.range 8760).map Int.ofNat) = 672 ∧
    steps_between_ticks ((List.range 200).map Int.ofNat) = 24 ∧
    steps_between_ticks ((List.range 30).map Int.ofNat) = 6 ∧
    steps_between_ticks ((List.range 10).map Int.ofNat) = 3 := by
  have hlen : ∀ timesteps : List Int,
      steps_between_ticks timesteps = strideOfLen timesteps.length := fun _ => rfl
  refine ⟨hlen, ?_, ?_, ?_, ?_⟩ <;>
    rw [hlen] <;> simp [strideOfLen]
